import Mathlib

/-!
Shallow embedding of the rendering core in src/renderer/Renderer.h
(a Monte Carlo path tracer: sampler, per-pixel path integration, and a
bucketed work scheduler), together with proofs of the specified
properties.

Modelling conventions:
* the C++ floating-point types real/float/double are modelled by the
  exact reals; rounding is outside the model;
* uint32_t arithmetic (the hash) is modelled on Nat with explicit
  reduction mod 2^32; the `int` accumulator of RadicalInverse and the
  scheduler's total work-unit count are modelled with two's-complement
  wraparound (int32wrap), because signed overflow is reachable there;
* the external collaborators (Scene, surfaces, the vector library) are
  modelled as Lean structures of pure functions, per the interface
  contract of the design: nearestIntersection returns an optional
  (surface, distance) pair, surfaces expose getNormal and a material.
-/

set_option maxHeartbeats 1000000
set_option maxRecDepth 4000

namespace FractalTracer

noncomputable section

/-- Vectors of the external vector library (vec3f / vec3r are both
modelled over the exact reals). -/
@[ext] structure Vec3 where
  x : ℝ
  y : ℝ
  z : ℝ

instance : Add Vec3 := ⟨fun a b => ⟨a.x + b.x, a.y + b.y, a.z + b.z⟩⟩
instance : Sub Vec3 := ⟨fun a b => ⟨a.x - b.x, a.y - b.y, a.z - b.z⟩⟩

/-- Componentwise product, as used for colour/throughput vectors. -/
instance : Mul Vec3 := ⟨fun a b => ⟨a.x * b.x, a.y * b.y, a.z * b.z⟩⟩

instance : Zero Vec3 := ⟨⟨0, 0, 0⟩⟩
instance : One Vec3 := ⟨⟨1, 1, 1⟩⟩

/-- Vector-times-scalar, the vec * scalar of the vector library. -/
def Vec3.scale (a : Vec3) (r : ℝ) : Vec3 := ⟨a.x * r, a.y * r, a.z * r⟩

/-- Broadcast of a scalar to a vector (vec + scalar, vec = scalar in the
source). -/
def Vec3.const (r : ℝ) : Vec3 := ⟨r, r, r⟩

/-- Dot product of the external vector library. -/
def dot (a b : Vec3) : ℝ := a.x * b.x + a.y * b.y + a.z * b.z

/-- Cross product of the external vector library. -/
def cross (a b : Vec3) : Vec3 :=
  ⟨a.y * b.z - a.z * b.y, a.z * b.x - a.x * b.z, a.x * b.y - a.y * b.x⟩

/-- Modelled from the spec: the external vector library's normalise
(rays carry a normalized direction; normalise divides by the Euclidean
length). -/
def normalise (v : Vec3) : Vec3 := v.scale (1 / Real.sqrt (dot v v))

/-- Ray: origin and direction (Renderer.h uses the external Ray { o, d }). -/
structure Ray where
  o : Vec3
  d : Vec3

/-- Material of the external scene collaborator (§6 of the design). -/
structure Material where
  albedo : Vec3
  emission : Vec3
  use_fresnel : Bool
  r0 : ℝ

/-- A scene surface: getNormal plus its material. -/
structure SceneObj where
  getNormal : Vec3 → Vec3
  mat : Material

/-- The scene collaborator: nearestIntersection returns none on a miss,
or the hit surface together with the hit distance along the ray. -/
structure Scene where
  nearestIntersection : Ray → Option (SceneObj × ℝ)

/-- RenderOutput (Renderer.h lines 11-35): resolution, pass counter and
the three accumulation channels, arrays modelled as index functions. -/
structure RenderOutput where
  xres : ℕ
  yres : ℕ
  passes : ℤ
  beauty : ℕ → Vec3
  normal : ℕ → Vec3
  albedo : ℕ → Vec3

/-- Two's-complement wraparound of a 32-bit signed int; models what
every mainstream implementation does on int overflow. -/
def int32wrap (z : ℤ) : ℤ := (z + 2 ^ 31) % 2 ^ 32 - 2 ^ 31

/-- Thomas Wang's integer hash (Renderer.h lines 47-55), on uint32_t
modelled as Nat reduced mod 2^32. -/
def hash (x : ℕ) : ℕ :=
  let x0 := x % 2 ^ 32
  let x1 := ((x0 ^^^ 12345391) * 2654435769) % 2 ^ 32
  let x2 := (x1 ^^^ ((x1 <<< 6) % 2 ^ 32) ^^^ (x1 >>> 26)) % 2 ^ 32
  let x3 := (x2 * 2654435769) % 2 ^ 32
  (x3 + (((x3 <<< 5) % 2 ^ 32) ^^^ (x3 >>> 12))) % 2 ^ 32

/-- uintToUnitReal (Renderer.h lines 78-93), the float branch: the top
23 bits of v become the mantissa of a float in [1,2), minus 1; its exact
value is (v >> 9) / 2^23. -/
def uintToUnitReal (v : ℕ) : ℝ := ((v % 2 ^ 32) >>> 9 : ℕ) / 2 ^ 23

/-- DoubleOneMinusEpsilon, the largest double below 1 (from the external
constants header; value 1 - 2^-53). -/
def DoubleOneMinusEpsilon : ℚ := 1 - 1 / 2 ^ 53

/-- The while loop of RadicalInverse (Renderer.h lines 59-73).
reversedDigits is a C++ int: each update is reduced by two's-complement
wraparound.  The guard base ≤ 1 makes the recursion well-founded; the
C++ loop does not terminate for base ≤ 1 and a > 0, and every claim
assumes base ≥ 2. -/
def radInvLoop (base : ℕ) (a : ℕ) (rd : ℤ) (ibn : ℚ) : ℚ :=
  if a = 0 ∨ base ≤ 1 then rd * ibn
  else radInvLoop base (a / base)
    (int32wrap (rd * (base : ℤ) + ((a - base * (a / base) : ℕ) : ℤ)))
    (ibn * (1 / base))
termination_by a
decreasing_by
  rename_i h
  push_neg at h
  exact Nat.div_lt_self (Nat.pos_of_ne_zero h.1) (by omega)

/-- RadicalInverse (Renderer.h lines 59-75): base-b digit reversal of a,
scaled into [0,1) and clamped below 1. -/
def RadicalInverse (a base : ℕ) : ℚ :=
  min (radInvLoop base a 0 1) DoubleOneMinusEpsilon

/-- Ideal (unbounded) digit-reversal accumulator, used to state when the
int accumulator of radInvLoop does not overflow. -/
def revNat (base : ℕ) (a rd : ℕ) : ℕ :=
  if a = 0 ∨ base ≤ 1 then rd
  else revNat base (a / base) (rd * base + (a - base * (a / base)))
termination_by a
decreasing_by
  rename_i h
  push_neg at h
  exact Nat.div_lt_self (Nat.pos_of_ne_zero h.1) (by omega)

/-- wrap1r (Renderer.h line 96): add-and-wrap into [0,1). -/
def wrap1r (u v : ℝ) : ℝ := if u + v < 1 then u + v else u + v - 1

/-- sign (Renderer.h line 106): 1 for v ≥ 0, else -1 (in particular
sign 0 = 1). -/
def sign (v : ℝ) : ℝ := if 0 ≤ v then 1 else -1

/-- triDist (Renderer.h lines 110-118), the triangle-distribution warp.
For orig = 0 the source computes 0/0, an IEEE NaN, and then
std::max((real)-1, NaN) returns its first argument -1 (std::max(a,b) is
b if a < b, else a); the reals have no NaN, so that branch is modelled
explicitly as -1.  For orig ≠ 0 the arithmetic is the source's. -/
def triDist (v : ℝ) : ℝ :=
  let orig := v * 2 - 1
  let w := if orig = 0 then -1 else max (-1) (orig / Real.sqrt |orig|)
  w - sign orig

/-- two_pi of the external maths header. -/
def two_pi : ℝ := 2 * Real.pi

/-- The fixed prime table of render (Renderer.h line 124). -/
def primes (i : ℕ) : ℕ := [2, 3, 5, 7, 11, 13].getD i 0

/-- One sampler draw as written in render:
wrap1r((real)RadicalInverse(pass, primes[wrap6i(dim)]), hash_random),
returning the drawn value and the advanced dimension cursor (wrap6i,
Renderer.h lines 98-104, returns the old cursor and cycles it mod 6). -/
def nextSample (pass : ℕ) (hr : ℝ) (dim : ℕ) : ℝ × ℕ :=
  (wrap1r ((RadicalInverse pass (primes dim) : ℚ) : ℝ) hr,
   if dim + 1 < 6 then dim + 1 else 0)

/-- The sky gradient colours (Renderer.h lines 191-192). -/
def skyUp : Vec3 := ((Vec3.mk 53 112 128).scale (1 / 255)).scale 0.75

/-- The horizon sky colour (Renderer.h line 192). -/
def skyHz : Vec3 := ((Vec3.mk 182 175 157).scale (1 / 255)).scale 0.8

/-- Sky colour of a missed ray (Renderer.h lines 191-195). -/
def skyColor (d : Vec3) : Vec3 :=
  let height := 1 - max 0 d.y
  let height2 := height * height
  skyUp + (skyHz - skyUp).scale (height2 * height2)

/-- Maximum channel of a colour (Renderer.h line 270). -/
def maxChannel (a : Vec3) : ℝ := max (max a.x a.y) a.z

/-- Russian-roulette survival probability (Renderer.h line 278):
max-albedo channel clamped to [0,1]. -/
def rrThresh (m : ℝ) : ℝ := max 0 (min 1 m)

/-- The per-path loop state of render (Renderer.h lines 177-182): the
current ray, the accumulators, the bounce counter and the sampler
dimension cursor. -/
structure PathState where
  ray_o : Vec3
  ray_d : Vec3
  contribution : Vec3
  throughput : Vec3
  normal_out : Vec3
  albedo_out : Vec3
  bounce : ℕ
  dim : ℕ

/-- Outcome of one iteration of the bounce loop: either the loop breaks
with the final accumulators, or it continues with an updated state. -/
inductive StepRes where
  | done : Vec3 → Vec3 → Vec3 → StepRes
  | cont : PathState → StepRes

/-- Direct lighting from the fixed point light (Renderer.h lines
238-264): the value added to the path contribution on a diffuse bounce,
including the n·l > 0 guard and the shadow-ray visibility test. -/
def directLight (scene : Scene) (hit_p normal albedo throughput : Vec3) : Vec3 :=
  let light_pos : Vec3 := ⟨8, 12, -6⟩
  let light_vec := light_pos - hit_p
  let n_dot_l := dot normal light_vec
  if 0 < n_dot_l then
    let light_ln2 := dot light_vec light_vec
    let light_len := Real.sqrt light_ln2
    let light_dir := light_vec.scale (1 / light_len)
    let refl_colour := ((albedo.scale n_dot_l).scale (1 / (light_ln2 * light_len))).scale 720
    match scene.nearestIntersection { o := hit_p, d := light_dir } with
    | none => throughput * refl_colour
    | some (_, shadow_t) =>
        if light_len ≤ shadow_t then throughput * refl_colour else 0
  else 0

/-- The direct-lighting term guarded by the bounce kind (Renderer.h line
239: the block runs only if not sample_specular). -/
def directTerm (sample_specular : Bool) (scene : Scene)
    (hit_p normal albedo throughput : Vec3) : Vec3 :=
  if sample_specular then 0 else directLight scene hit_p normal albedo throughput

/-- Surface-event selection (Renderer.h lines 219-236): Schlick Fresnel
weighting decides specular vs diffuse and the effective albedo; returns
(sample_specular, effective albedo, advanced dimension cursor). -/
def surfaceSel (pass : ℕ) (hr : ℝ) (mat : Material) (normal ray_d : Vec3)
    (dim : ℕ) : Bool × Vec3 × ℕ :=
  if mat.use_fresnel then
    let r0 := mat.r0
    let p1 := 1 - |dot normal ray_d|
    let p2 := p1 * p1
    let fresnel := r0 + (1 - r0) * p2 * p2 * p1
    let mu := nextSample pass hr dim
    if mu.1 < fresnel then (true, Vec3.const 0.95, mu.2)
    else (false, mat.albedo, mu.2)
  else (false, mat.albedo, dim)

/-- Russian roulette (Renderer.h lines 275-282), reached with the
incremented bounce count: none means the path is killed, otherwise the
(possibly compensated) throughput and advanced cursor are returned. -/
def rouletteStep (pass : ℕ) (hr : ℝ) (bounce : ℕ) (max_albedo : ℝ)
    (throughput : Vec3) (dim : ℕ) : Option (Vec3 × ℕ) :=
  if 2 < bounce then
    let ru := nextSample pass hr dim
    if rrThresh max_albedo < ru.1 then none
    else some (throughput.scale (1 / rrThresh max_albedo), ru.2)
  else some (throughput, dim)

/-- Choice of the next bounce direction (Renderer.h lines 284-306):
mirror reflection for specular bounces, cosine-weighted hemisphere
sampling (two sampler draws) for diffuse ones. -/
def newDirection (pass : ℕ) (hr : ℝ) (sample_specular : Bool)
    (ray_d normal : Vec3) (dim : ℕ) : Vec3 × ℕ :=
  if sample_specular then
    (ray_d - normal.scale (2 * dot normal ray_d), dim)
  else
    let sx := nextSample pass hr dim
    let sy := nextSample pass hr sx.2
    let a := sx.1 * two_pi
    let s := 2 * Real.sqrt (max 0 (sy.1 * (1 - sy.1)))
    let sphere : Vec3 := ⟨Real.cos a * s, Real.sin a * s, 1 - 2 * sy.1⟩
    (normalise (normal + sphere), sy.2)

/-- One iteration of the bounce loop of render (Renderer.h lines
183-314): intersect, handle a miss (sky), or process the hit (first
bounce channels, emission, surface-event selection, direct lighting,
bounce-limit check, zero-albedo check, Russian roulette, next
direction). -/
def pathStep (scene : Scene) (pass : ℕ) (hr : ℝ) (st : PathState) : StepRes :=
  match scene.nearestIntersection { o := st.ray_o, d := st.ray_d } with
  | none =>
      .done (st.contribution + st.throughput * skyColor st.ray_d)
        st.normal_out st.albedo_out
  | some (nearest_hit_obj, nearest_hit_t) =>
      let hit_p := st.ray_o + st.ray_d.scale nearest_hit_t
      let normal := nearest_hit_obj.getNormal hit_p
      let mat := nearest_hit_obj.mat
      let normal_out :=
        if st.bounce = 0 then
          (Vec3.mk normal.x normal.z normal.y).scale 0.5 + Vec3.const 0.5
        else st.normal_out
      let albedo_out := if st.bounce = 0 then mat.albedo else st.albedo_out
      let contrib1 := st.contribution + st.throughput * mat.emission
      let sel := surfaceSel pass hr mat normal st.ray_d st.dim
      let sample_specular := sel.1
      let albedo := sel.2.1
      let contrib2 :=
        contrib1 + directTerm sample_specular scene hit_p normal albedo st.throughput
      if 5 < st.bounce + 1 then .done contrib2 normal_out albedo_out
      else if maxChannel albedo < (1e-8 : ℝ) then .done contrib2 normal_out albedo_out
      else
        match rouletteStep pass hr (st.bounce + 1) (maxChannel albedo)
          st.throughput sel.2.2 with
        | none => .done contrib2 normal_out albedo_out
        | some (tp1, dimB) =>
            let nd := newDirection pass hr sample_specular st.ray_d normal dimB
            .cont { ray_o := hit_p, ray_d := nd.1, contribution := contrib2,
                    throughput := tp1 * albedo, normal_out := normal_out,
                    albedo_out := albedo_out, bounce := st.bounce + 1,
                    dim := nd.2 }

/-- The bounce loop of render, with an explicit iteration budget (the
C++ loop is while(true) with breaks; the budget is irrelevant from 6 on,
see the termination theorem).  Returns the final (contribution,
normal_out, albedo_out) and the number of loop iterations executed. -/
def pathTrace (scene : Scene) (pass : ℕ) (hr : ℝ) :
    ℕ → PathState → (Vec3 × Vec3 × Vec3) × ℕ
  | 0, st => ((st.contribution, st.normal_out, st.albedo_out), 0)
  | fuel + 1, st =>
      match pathStep scene pass hr st with
      | .done c n a => ((c, n, a), 1)
      | .cont st' =>
          let r := pathTrace scene pass hr fuel st'
          (r.1, r.2 + 1)

/-- The body of render up to the accumulation writes (Renderer.h lines
120-314): camera setup, sampler initialisation and the bounce loop.
Depends only on the listed inputs (the buffer enters only through its
resolution); returns the values added to beauty, normal and albedo. -/
def renderDelta (x y frame pass frames xres yres : ℕ) (scene : Scene) :
    Vec3 × Vec3 × Vec3 :=
  let pixel_idx := y * xres + x
  let aspect_ratio : ℝ := (xres : ℝ) / (yres : ℝ)
  let fov_deg : ℝ := 80
  let fov_rad := fov_deg * two_pi / 360
  let sensor_width := 2 * Real.tan (fov_rad / 2)
  let sensor_height := sensor_width / aspect_ratio
  let hash_random := uintToUnitReal (hash (frame * xres * yres + pixel_idx))
  let s0 := nextSample pass hash_random 0
  let pixel_sample_x := triDist s0.1
  let s1 := nextSample pass hash_random s0.2
  let pixel_sample_y := triDist s1.1
  let ts : ℝ × ℕ :=
    if frames = 0 then (0, s1.2)
    else
      let s2 := nextSample pass hash_random s1.2
      (two_pi * ((frame : ℝ) + triDist s2.1) / (frames : ℝ), s2.2)
  let cos_t := Real.cos ts.1
  let sin_t := Real.sin ts.1
  let cam_lookat : Vec3 := ⟨0, -0.125, 0⟩
  let world_up : Vec3 := ⟨0, 1, 0⟩
  let cam_pos := (Vec3.mk (4 * cos_t + 10 * sin_t) 5 (-10 * cos_t + 4 * sin_t)).scale 0.3
  let cam_forward := normalise (cam_lookat - cam_pos)
  let cam_right := cross world_up cam_forward
  let cam_up := cross cam_forward cam_right
  let pixel_x := cam_right.scale (sensor_width / (xres : ℝ))
  let pixel_y := cam_up.scale (-(sensor_height / (yres : ℝ)))
  let pixel_v := cam_forward
    + pixel_x.scale ((x : ℝ) - (xres : ℝ) * 0.5 + pixel_sample_x + 0.5)
    + pixel_y.scale ((y : ℝ) - (yres : ℝ) * 0.5 + pixel_sample_y + 0.5)
  let st0 : PathState :=
    { ray_o := cam_pos, ray_d := normalise pixel_v, contribution := 0,
      throughput := 1, normal_out := 0, albedo_out := 0, bounce := 0,
      dim := ts.2 }
  (pathTrace scene pass hash_random 6 st0).1

/-- render (Renderer.h lines 120-319): computes the per-pixel deltas and
adds them into the three channels at pixel_idx = y * xres + x
(lines 316-318). -/
def render (x y frame pass frames : ℕ) (scene : Scene) (o : RenderOutput) :
    RenderOutput :=
  let pixel_idx := y * o.xres + x
  let d := renderDelta x y frame pass frames o.xres o.yres scene
  { o with
    beauty := Function.update o.beauty pixel_idx (o.beauty pixel_idx + d.1),
    normal := Function.update o.normal pixel_idx (o.normal pixel_idx + d.2.1),
    albedo := Function.update o.albedo pixel_idx (o.albedo pixel_idx + d.2.2) }

/-- Bucket edge length (Renderer.h line 334). -/
def bucket_size : ℕ := 32

/-- x_buckets (Renderer.h line 335): the int expression
(xres + bucket_size - 1) / bucket_size, with two's-complement
wraparound of the int addition and C++ truncating division (Int.tdiv). -/
def xBucketsI (xres : ℕ) : ℤ :=
  Int.tdiv (int32wrap ((xres : ℤ) + 32 - 1)) 32

/-- y_buckets (Renderer.h line 336), int semantics as in xBucketsI. -/
def yBucketsI (yres : ℕ) : ℤ :=
  Int.tdiv (int32wrap ((yres : ℤ) + 32 - 1)) 32

/-- num_buckets = x_buckets * y_buckets (Renderer.h line 337), an int
product with two's-complement wraparound. -/
def numBucketsI (xres yres : ℕ) : ℤ :=
  int32wrap (xBucketsI xres * yBucketsI yres)

/-- The loop bound num_buckets * num_passes the claimed unit index is
compared against (Renderer.h line 344), an int product with
two's-complement wraparound. -/
def totalUnitsI (xres yres P : ℕ) : ℤ :=
  int32wrap (numBucketsI xres yres * (P : ℤ))

/-- The mathematical (unbounded) number of bucket columns.  It agrees
with the source's int computation xBucketsI exactly when
xres + 31 < 2^31 (theorem xBucketsI_eq); the coverage theorem assumes
that bound and the overflow counterexamples exercise its failure. -/
def xBuckets (xres : ℕ) : ℕ := (xres + bucket_size - 1) / bucket_size

/-- The mathematical (unbounded) number of bucket rows; agrees with
yBucketsI exactly when yres + 31 < 2^31 (theorem yBucketsI_eq). -/
def yBuckets (yres : ℕ) : ℕ := (yres + bucket_size - 1) / bucket_size

/-- The mathematical (unbounded) bucket count per sub-pass; agrees with
numBucketsI on the no-overflow domain (theorem numBucketsI_eq). -/
def numBuckets (xres yres : ℕ) : ℕ := xBuckets xres * yBuckets yres

/-- The pixel/sub-pass triples (x, y, sub_pass) that the work unit with
index b evaluates (Renderer.h lines 347-357), written over the
mathematical bucket counts: decode b into sub-pass and bucket
row/column, clip the rectangle to the image, and enumerate it row-major.
Equal to the int-semantics decode bucketCallsI on the no-overflow domain
(theorem bucketCallsI_eq). -/
def bucketCalls (xres yres b : ℕ) : List (ℕ × ℕ × ℕ) :=
  let nb := numBuckets xres yres
  let sub_pass := b / nb
  let bucket_p := b - nb * sub_pass
  let bucket_y := bucket_p / xBuckets xres
  let bucket_x := bucket_p - xBuckets xres * bucket_y
  let x0 := bucket_x * bucket_size
  let x1 := min (x0 + bucket_size) xres
  let y0 := bucket_y * bucket_size
  let y1 := min (y0 + bucket_size) yres
  (List.range' y0 (y1 - y0)).flatMap fun yy =>
    (List.range' x0 (x1 - x0)).map fun xx => (xx, yy, sub_pass)

/-- The decode of work unit b (Renderer.h lines 347-357) with the int
semantics of the source: truncating division, and two's-complement
wraparound on every product, sum and difference.  The for loops
enumerate y from bucket_y0 while y < bucket_y1 (and likewise x), which
is the mapped range below.  The final toNat conversions translate the
decoded int coordinates, which are nonnegative in every execution any
claim quantifies over, into the naturals of the pixel grid (a negative
decoded coordinate or sub-pass would make the source index the output
arrays out of bounds or hand render a negative pass index; no claim
covers that region and no theorem below quantifies into it). -/
def bucketCallsI (xres yres : ℕ) (b : ℤ) : List (ℕ × ℕ × ℕ) :=
  let nb := numBucketsI xres yres
  let sub_pass := Int.tdiv b nb
  let bucket_p := int32wrap (b - int32wrap (nb * sub_pass))
  let bucket_y := Int.tdiv bucket_p (xBucketsI xres)
  let bucket_x := int32wrap (bucket_p - int32wrap (xBucketsI xres * bucket_y))
  let x0 := int32wrap (bucket_x * 32)
  let x1 := min (int32wrap (x0 + 32)) (xres : ℤ)
  let y0 := int32wrap (bucket_y * 32)
  let y1 := min (int32wrap (y0 + 32)) (yres : ℤ)
  (List.range (y1 - y0).toNat).flatMap fun (yy : ℕ) =>
    (List.range (x1 - x0).toNat).map fun (xx : ℕ) =>
      ((x0 + (xx : ℤ)).toNat, (y0 + (yy : ℤ)).toNat, sub_pass.toNat)

/-- The complete sequence of render invocations (x, y, sub_pass) made by
renderThreadFunction run single-threaded to completion (Renderer.h lines
340-358): the atomic counter hands out unit indices 0, 1, 2, ... until
the claimed index reaches the int bound num_buckets * num_passes (no
iterations when that wrapped bound is not positive). -/
def scheduleCalls (xres yres P : ℕ) : List (ℕ × ℕ × ℕ) :=
  (List.range (totalUnitsI xres yres P).toNat).flatMap fun b =>
    bucketCallsI xres yres (b : ℤ)

/-- renderThreadFunction run single-threaded (Renderer.h lines 322-359):
folds render over the scheduled calls in claiming order. -/
def runScheduler (P frame base_pass frames : ℕ) (scene : Scene)
    (o : RenderOutput) : RenderOutput :=
  (scheduleCalls o.xres o.yres P).foldl
    (fun acc c => render c.1 c.2.1 frame (base_pass + c.2.2) frames scene acc) o

/-- Number of times the scheduler evaluates pixel (x, y) in sub-pass s. -/
def callCount (xres yres P x y s : ℕ) : ℕ :=
  (scheduleCalls xres yres P).countP fun c => decide (c = (x, y, s))

/-- Number of times the scheduler evaluates pixel (x, y) over all
sub-passes. -/
def pixelCallCount (xres yres P x y : ℕ) : ℕ :=
  (scheduleCalls xres yres P).countP fun c => decide (c.1 = x ∧ c.2.1 = y)

/-- The unique work unit whose rectangle contains pixel (x, y) in
sub-pass s. -/
def targetB (xres yres x y s : ℕ) : ℕ :=
  s * numBuckets xres yres + ((y / bucket_size) * xBuckets xres + x / bucket_size)

/-- The unique bucket (within one sub-pass) whose rectangle contains
pixel (x, y). -/
def targetP (xres x y : ℕ) : ℕ :=
  (y / bucket_size) * xBuckets xres + x / bucket_size

/-- The direct-lighting contribution as the specification words it:
effective albedo times max(0, n·lightVec), divided by distance^3, scaled
by the constant 720 and weighted by the throughput; added if and only if
the shadow ray reports no hit or a hit no closer than the light. -/
def directLightSpec (scene : Scene) (hit_p normal albedo throughput : Vec3) : Vec3 :=
  let lv := (⟨8, 12, -6⟩ : Vec3) - hit_p
  let dist := Real.sqrt (dot lv lv)
  let contrib :=
    throughput * ((albedo.scale (max 0 (dot normal lv) / dist ^ 3)).scale 720)
  match scene.nearestIntersection { o := hit_p, d := lv.scale (1 / dist) } with
  | none => contrib
  | some (_, t) => if dist ≤ t then contrib else 0

/-- A scene in which every ray misses (used to instantiate theorems). -/
def missScene : Scene := ⟨fun _ => none⟩

/-- A concrete all-zero path state (used to instantiate theorems). -/
def stZero : PathState :=
  { ray_o := 0, ray_d := 0, contribution := 0, throughput := 1,
    normal_out := 0, albedo_out := 0, bounce := 0, dim := 0 }

/-- A concrete cleared output buffer (used to instantiate theorems). -/
def emptyOutput (xr yr : ℕ) : RenderOutput :=
  { xres := xr, yres := yr, passes := 0,
    beauty := fun _ => 0, normal := fun _ => 0, albedo := fun _ => 0 }

/-- A concrete buffer with different array contents and pass counter
(used to instantiate theorems about buffer-content independence). -/
def onesOutput (xr yr : ℕ) : RenderOutput :=
  { xres := xr, yres := yr, passes := 7,
    beauty := fun _ => 1, normal := fun _ => 1, albedo := fun _ => 1 }

end

/-! ### Componentwise lemmas for the vector model -/

@[simp] theorem Vec3.add_def (a b : Vec3) :
    a + b = ⟨a.x + b.x, a.y + b.y, a.z + b.z⟩ := rfl

@[simp] theorem Vec3.sub_def (a b : Vec3) :
    a - b = ⟨a.x - b.x, a.y - b.y, a.z - b.z⟩ := rfl

@[simp] theorem Vec3.mul_def (a b : Vec3) :
    a * b = ⟨a.x * b.x, a.y * b.y, a.z * b.z⟩ := rfl

@[simp] theorem Vec3.scale_def (a : Vec3) (r : ℝ) :
    a.scale r = ⟨a.x * r, a.y * r, a.z * r⟩ := rfl

@[simp] theorem Vec3.zero_def : (0 : Vec3) = ⟨0, 0, 0⟩ := rfl

@[simp] theorem Vec3.one_def : (1 : Vec3) = ⟨1, 1, 1⟩ := rfl

theorem Vec3.add_sub_cancel_left (a b : Vec3) : a + b - a = b := by
  ext <;> simp

/-! ### Claim C7: the Russian-roulette divisor is strictly positive -/

/-- C7.  Whenever the Russian-roulette throughput division executes, its
divisor rrThresh max_albedo is at least 1e-8 and strictly positive: the
roulette block is only reached after the zero-albedo break has
established that the effective albedo's maximum channel is not below
1e-8, and the survival probability clamps that channel into [0,1]. -/
theorem roulette_divisor_positive (m : ℝ) (h : ¬ m < (1e-8 : ℝ)) :
    (1e-8 : ℝ) ≤ rrThresh m ∧ 0 < rrThresh m := by
  push_neg at h
  have h1 : (1e-8 : ℝ) ≤ min 1 m := le_min (by norm_num) h
  have h2 : min 1 m ≤ rrThresh m := le_max_right 0 (min 1 m)
  constructor
  · exact le_trans h1 h2
  · exact lt_of_lt_of_le (by norm_num : (0:ℝ) < 1e-8) (le_trans h1 h2)

/-- Witness for C7 at the concrete channel value 1. -/
theorem roulette_divisor_positive_witness :
    (1e-8 : ℝ) ≤ rrThresh 1 ∧ 0 < rrThresh 1 :=
  roulette_divisor_positive 1 (by norm_num)

/-! ### Claims C5 and C6: the triangle-distribution warp -/

/-- Counterexample to C5: at u = 1/2 triDist does not return -1 (the
nerfed NaN is -1, but sign 0 = 1 is then subtracted). -/
theorem triDist_half_not_neg_one : triDist (1 / 2) ≠ -1 := by
  norm_num [triDist, sign]

/-- C5 (amended).  At the degenerate input u = 1/2 (where s = 2u-1 = 0
and s/sqrt|s| is 0/0), triDist returns exactly -2, a finite value: the
NaN is clamped to -1 and sign 0 = 1 is subtracted. -/
theorem triDist_half_eq_neg_two : triDist (1 / 2) = -2 := by
  norm_num [triDist, sign]

theorem triDist_pos_form (u : ℝ) (h : 0 < u * 2 - 1) :
    triDist u = Real.sqrt (u * 2 - 1) - 1 := by
  have hne : u * 2 - 1 ≠ 0 := ne_of_gt h
  simp only [triDist, sign]
  rw [if_neg hne, if_pos (le_of_lt h), abs_of_pos h, Real.div_sqrt,
    max_eq_right (le_trans (by norm_num) (Real.sqrt_nonneg _))]

theorem triDist_neg_form (u : ℝ) (hlo : -1 ≤ u * 2 - 1) (h : u * 2 - 1 < 0) :
    triDist u = 1 - Real.sqrt (-(u * 2 - 1)) := by
  have hne : u * 2 - 1 ≠ 0 := ne_of_lt h
  have habs : |u * 2 - 1| = -(u * 2 - 1) := abs_of_neg h
  have hdiv : (u * 2 - 1) / Real.sqrt (-(u * 2 - 1)) = -Real.sqrt (-(u * 2 - 1)) := by
    have hd := congrArg Neg.neg (Real.div_sqrt (x := -(u * 2 - 1)))
    rwa [← neg_div, neg_neg] at hd
  have hle : Real.sqrt (-(u * 2 - 1)) ≤ 1 := Real.sqrt_le_one.mpr (by linarith)
  simp only [triDist, sign]
  rw [if_neg hne, if_neg (not_le.mpr h), habs, hdiv,
    max_eq_right (by linarith)]
  ring

/-- Counterexample to C6: the valid input u = 1/2 of [0,1) is mapped
below -1, outside the claimed range [-1, 1]. -/
theorem triDist_half_out_of_range :
    (0 : ℝ) ≤ 1 / 2 ∧ (1 / 2 : ℝ) < 1 ∧ triDist (1 / 2) < -1 := by
  refine ⟨by norm_num, by norm_num, ?_⟩
  norm_num [triDist, sign]

/-- C6 (amended).  For every u in [0,1) other than the degenerate
clamped input 1/2, the warp output lies in [-1,1] and is symmetric:
triDist u = -triDist (1-u).  (At u = 1/2 itself the output is -2.) -/
theorem triDist_range_symm (u : ℝ) (h0 : 0 ≤ u) (h1 : u < 1)
    (hne : u ≠ 1 / 2) :
    (-1 ≤ triDist u ∧ triDist u ≤ 1) ∧ triDist u = -triDist (1 - u) := by
  have hcase : u * 2 - 1 < 0 ∨ 0 < u * 2 - 1 := by
    rcases lt_trichotomy (u * 2 - 1) 0 with h | h | h
    · exact Or.inl h
    · exact absurd (by linarith : u = 1 / 2) hne
    · exact Or.inr h
  rcases hcase with h | h
  · have hform := triDist_neg_form u (by linarith) h
    have hform' : triDist (1 - u) = Real.sqrt ((1 - u) * 2 - 1) - 1 :=
      triDist_pos_form (1 - u) (by linarith)
    have harg : (1 - u) * 2 - 1 = -(u * 2 - 1) := by ring
    have hs0 : 0 ≤ Real.sqrt (-(u * 2 - 1)) := Real.sqrt_nonneg _
    have hs1 : Real.sqrt (-(u * 2 - 1)) ≤ 1 := Real.sqrt_le_one.mpr (by linarith)
    refine ⟨⟨by rw [hform]; linarith, by rw [hform]; linarith⟩, ?_⟩
    rw [hform, hform', harg]
    ring
  · have hform := triDist_pos_form u h
    have hform' : triDist (1 - u) = 1 - Real.sqrt (-((1 - u) * 2 - 1)) :=
      triDist_neg_form (1 - u) (by linarith) (by linarith)
    have harg : -((1 - u) * 2 - 1) = u * 2 - 1 := by ring
    have hs0 : 0 ≤ Real.sqrt (u * 2 - 1) := Real.sqrt_nonneg _
    have hs1 : Real.sqrt (u * 2 - 1) ≤ 1 := Real.sqrt_le_one.mpr (by linarith)
    refine ⟨⟨by rw [hform]; linarith, by rw [hform]; linarith⟩, ?_⟩
    rw [hform, hform', harg]
    ring

/-- Witness for C6 (amended) at the concrete input u = 1/4. -/
theorem triDist_range_symm_witness :
    (-1 ≤ triDist (1 / 4) ∧ triDist (1 / 4) ≤ 1) ∧
      triDist (1 / 4) = -triDist (1 - 1 / 4) :=
  triDist_range_symm (1 / 4) (by norm_num) (by norm_num) (by norm_num)

/-! ### Claim C4: range of the radical-inverse generator -/

theorem le_revNat (base : ℕ) (hb : 2 ≤ base) :
    ∀ a rd : ℕ, rd ≤ revNat base a rd := by
  intro a
  induction a using Nat.strong_induction_on with
  | _ a ih =>
    intro rd
    rw [revNat]
    split
    · exact le_refl rd
    · rename_i h
      push_neg at h
      refine le_trans ?_
        (ih (a / base) (Nat.div_lt_self (Nat.pos_of_ne_zero h.1) (by omega)) _)
      have h1 : rd * 1 ≤ rd * base := Nat.mul_le_mul_left rd (by omega)
      omega

theorem int32wrap_eq_self (z : ℤ) (h0 : 0 ≤ z) (h1 : z < 2 ^ 31) :
    int32wrap z = z := by
  unfold int32wrap
  rw [Int.emod_eq_of_lt (by omega) (by omega)]
  omega

theorem radInvLoop_bound (base : ℕ) (hb : 2 ≤ base) :
    ∀ a rd : ℕ, ∀ ibn : ℚ, 0 < ibn → revNat base a rd < 2 ^ 31 →
      0 ≤ radInvLoop base a (rd : ℤ) ibn ∧
        radInvLoop base a (rd : ℤ) ibn < ((rd : ℚ) + 1) * ibn := by
  intro a
  induction a using Nat.strong_induction_on with
  | _ a ih =>
    intro rd ibn hibn hfit
    rw [radInvLoop]
    split
    · constructor
      · exact mul_nonneg (by push_cast; positivity) hibn.le
      · have hlt : (((rd : ℤ) : ℚ)) < (rd : ℚ) + 1 := by push_cast; linarith
        exact mul_lt_mul_of_pos_right hlt hibn
    · rename_i h
      push_neg at h
      have hbase0 : (0 : ℚ) < (base : ℚ) := by
        exact_mod_cast (show 0 < base by omega)
      have hdig : a - base * (a / base) < base := by
        have h1 := Nat.div_add_mod a base
        have h2 := Nat.mod_lt a (show 0 < base by omega)
        omega
      have hrev : revNat base a rd
          = revNat base (a / base) (rd * base + (a - base * (a / base))) := by
        rw [revNat, if_neg]
        intro hc
        rcases hc with hc | hc
        · exact h.1 hc
        · omega
      rw [hrev] at hfit
      have hrd' : rd * base + (a - base * (a / base)) < 2 ^ 31 :=
        lt_of_le_of_lt (le_revNat base hb (a / base) _) hfit
      have hcast : (rd : ℤ) * (base : ℤ) + ((a - base * (a / base) : ℕ) : ℤ)
          = ((rd * base + (a - base * (a / base)) : ℕ) : ℤ) := by push_cast; ring
      have hwrap : int32wrap ((rd : ℤ) * (base : ℤ) + ((a - base * (a / base) : ℕ) : ℤ))
          = ((rd * base + (a - base * (a / base)) : ℕ) : ℤ) := by
        rw [hcast]
        exact int32wrap_eq_self _ (by positivity) (by exact_mod_cast hrd')
      rw [hwrap]
      have hibn' : 0 < ibn * (1 / (base : ℚ)) := by positivity
      obtain ⟨ih0, ih1⟩ := ih (a / base)
        (Nat.div_lt_self (Nat.pos_of_ne_zero h.1) (by omega))
        (rd * base + (a - base * (a / base))) (ibn * (1 / base)) hibn' hfit
      refine ⟨ih0, lt_of_lt_of_le ih1 ?_⟩
      have hstep : ((rd * base + (a - base * (a / base)) : ℕ) : ℚ) + 1
          ≤ ((rd : ℚ) + 1) * (base : ℚ) := by
        have hdq : ((a - base * (a / base) : ℕ) : ℚ) + 1 ≤ (base : ℚ) := by
          exact_mod_cast hdig
        have hexp : ((rd : ℚ) + 1) * (base : ℚ)
            = (rd : ℚ) * (base : ℚ) + (base : ℚ) := by ring
        push_cast
        rw [hexp]
        push_cast at hdq
        linarith
      calc (((rd * base + (a - base * (a / base)) : ℕ) : ℚ) + 1) * (ibn * (1 / base))
          ≤ (((rd : ℚ) + 1) * (base : ℚ)) * (ibn * (1 / base)) :=
            mul_le_mul_of_nonneg_right hstep hibn'.le
        _ = ((rd : ℚ) + 1) * ibn := by field_simp; ring

/-- Counterexample to C4: the int accumulator reversedDigits overflows.
For a = 3^19 + 2 = 1162261469 (a valid nonnegative int) and base 3 the
digit-reversed value is 2 * 3^19 + 1 = 2324522935 > 2^31 - 1, the int
accumulator wraps to a negative value, and RadicalInverse returns a
negative number, outside the claimed range [0, 1). -/
theorem radicalInverse_overflow_negative : RadicalInverse 1162261469 3 < 0 := by
  rw [RadicalInverse]
  repeat (rw [radInvLoop]; norm_num [int32wrap])

/-- C4 (amended).  For every index a ≥ 0 and base ≥ 2 whose digit
reversal fits a 32-bit signed int (no overflow of the reversedDigits
accumulator; in particular every practically reachable pass index),
RadicalInverse a base lies in [0, 1), strictly below 1, and
RadicalInverse 0 base = 0. -/
theorem radicalInverse_bounded (a base : ℕ) (hb : 2 ≤ base)
    (hfit : revNat base a 0 < 2 ^ 31) :
    0 ≤ RadicalInverse a base ∧ RadicalInverse a base < 1 ∧
      RadicalInverse 0 base = 0 := by
  obtain ⟨h0, h1⟩ := radInvLoop_bound base hb a 0 1 one_pos hfit
  push_cast at h0
  refine ⟨le_min h0 (by norm_num [DoubleOneMinusEpsilon]), ?_, ?_⟩
  · exact lt_of_le_of_lt (min_le_right _ _) (by norm_num [DoubleOneMinusEpsilon])
  · rw [RadicalInverse, radInvLoop]
    norm_num [DoubleOneMinusEpsilon]

/-- Witness for C4 (amended) at a = 6, base = 2. -/
theorem radicalInverse_bounded_witness :
    0 ≤ RadicalInverse 6 2 ∧ RadicalInverse 6 2 < 1 ∧ RadicalInverse 0 2 = 0 :=
  radicalInverse_bounded 6 2 (by norm_num) (by repeat (rw [revNat]; norm_num))

/-! ### Claims C3 and C9: the bounce loop -/

theorem pathStep_cont (scene : Scene) (pass : ℕ) (hr : ℝ) (st st' : PathState)
    (h : pathStep scene pass hr st = .cont st') :
    st'.bounce = st.bounce + 1 ∧ st.bounce + 1 ≤ 5 := by
  unfold pathStep at h
  rcases hi : scene.nearestIntersection { o := st.ray_o, d := st.ray_d } with _ | ⟨obj, t⟩
  · rw [hi] at h
    simp at h
  · rw [hi] at h
    dsimp only at h
    split at h
    · exact absurd h (by simp)
    · split at h
      · exact absurd h (by simp)
      · split at h
        · exact absurd h (by simp)
        · rename_i hb5 _ _ _
          cases h
          exact ⟨rfl, by omega⟩

theorem pathTrace_count (scene : Scene) (pass : ℕ) (hr : ℝ) :
    ∀ fuel st, st.bounce ≤ 5 → 6 - st.bounce ≤ fuel →
      (pathTrace scene pass hr fuel st).2 ≤ 6 - st.bounce := by
  intro fuel
  induction fuel with
  | zero => intro st h5 hf; omega
  | succ fuel ih =>
    intro st h5 hf
    simp only [pathTrace]
    rcases hps : pathStep scene pass hr st with _ | st'
    · dsimp
      omega
    · dsimp
      obtain ⟨hb, hb5⟩ := pathStep_cont scene pass hr st st' hps
      have := ih st' (by omega) (by omega)
      omega

theorem pathTrace_fuel_irrel (scene : Scene) (pass : ℕ) (hr : ℝ) :
    ∀ f1 f2 st, st.bounce ≤ 5 → 6 - st.bounce ≤ f1 → 6 - st.bounce ≤ f2 →
      pathTrace scene pass hr f1 st = pathTrace scene pass hr f2 st := by
  intro f1
  induction f1 with
  | zero => intro f2 st h5 hf1 hf2; omega
  | succ f1 ih =>
    intro f2 st h5 hf1 hf2
    obtain ⟨f2', rfl⟩ : ∃ k, f2 = k + 1 := ⟨f2 - 1, by omega⟩
    simp only [pathTrace]
    rcases hps : pathStep scene pass hr st with _ | st'
    · rfl
    · obtain ⟨hb, hb5⟩ := pathStep_cont scene pass hr st st' hps
      dsimp
      rw [ih f2' st' (by omega) (by omega) (by omega)]

/-- C3.  The bounce loop terminates: started at bounce = 0, it executes
at most 6 scene-intersection iterations (the counter is incremented once
per hit iteration and the loop exits once it exceeds the bounce limit
5), and any iteration budget of at least 6 yields the same result as
budget 6 — the while(true) loop cannot run longer. -/
theorem bounce_loop_terminates (scene : Scene) (pass : ℕ) (hr : ℝ)
    (st : PathState) (fuel : ℕ) (hb : st.bounce = 0) (hf : 6 ≤ fuel) :
    (pathTrace scene pass hr fuel st).2 ≤ 6 ∧
      pathTrace scene pass hr fuel st = pathTrace scene pass hr 6 st := by
  have h1 := pathTrace_count scene pass hr fuel st (by omega) (by omega)
  have h2 := pathTrace_fuel_irrel scene pass hr fuel 6 st (by omega) (by omega)
    (by omega)
  exact ⟨by omega, h2⟩

/-- Witness for C3 on a concrete scene and state. -/
theorem bounce_loop_terminates_witness :
    (pathTrace missScene 0 0 6 stZero).2 ≤ 6 ∧
      pathTrace missScene 0 0 6 stZero = pathTrace missScene 0 0 6 stZero :=
  bounce_loop_terminates missScene 0 0 stZero 6 rfl (le_refl 6)

/-- C9.  When the scene intersection reports no hit, the path adds
throughput * sky colour to its contribution and terminates after that
single iteration; the sky colour is the fixed two-colour gradient driven
by (1 - max 0 d.y)^4. -/
theorem sky_on_miss (scene : Scene) (pass : ℕ) (hr : ℝ) (st : PathState)
    (fuel : ℕ)
    (h : scene.nearestIntersection { o := st.ray_o, d := st.ray_d } = none) :
    pathTrace scene pass hr (fuel + 1) st
      = ((st.contribution + st.throughput * skyColor st.ray_d,
          st.normal_out, st.albedo_out), 1) ∧
      skyColor st.ray_d
        = skyUp + (skyHz - skyUp).scale ((1 - max 0 st.ray_d.y) ^ 4) := by
  constructor
  · have hps : pathStep scene pass hr st
        = .done (st.contribution + st.throughput * skyColor st.ray_d)
          st.normal_out st.albedo_out := by
      unfold pathStep
      rw [h]
    simp only [pathTrace]
    rw [hps]
  · have hpow : (1 - max 0 st.ray_d.y) * (1 - max 0 st.ray_d.y)
        * ((1 - max 0 st.ray_d.y) * (1 - max 0 st.ray_d.y))
        = (1 - max 0 st.ray_d.y) ^ 4 := by ring
    simp only [skyColor]
    rw [← hpow]

/-- Witness for C9 on the all-miss scene. -/
theorem sky_on_miss_witness :
    pathTrace missScene 0 0 1 stZero
      = ((stZero.contribution + stZero.throughput * skyColor stZero.ray_d,
          stZero.normal_out, stZero.albedo_out), 1) ∧
      skyColor stZero.ray_d
        = skyUp + (skyHz - skyUp).scale ((1 - max 0 stZero.ray_d.y) ^ 4) :=
  sky_on_miss missScene 0 0 stZero 0 rfl

/-! ### Claim C8: the direct-lighting term -/

theorem dot_self_nonneg (v : Vec3) : 0 ≤ dot v v := by
  unfold dot
  have hx := mul_self_nonneg v.x
  have hy := mul_self_nonneg v.y
  have hz := mul_self_nonneg v.z
  linarith

/-- C8.  Direct lighting is evaluated only on diffuse (non-specular)
bounces — the specular branch contributes exactly 0 — and on diffuse
bounces its value is throughput * (albedo * max(0, n·lightVec) /
distance^3 * 720), added if and only if the shadow ray towards the light
reports no hit or a hit at distance at least the light distance. -/
theorem direct_lighting_correct (scene : Scene) (hp n alb tp : Vec3) :
    directTerm true scene hp n alb tp = 0 ∧
    directTerm false scene hp n alb tp = directLightSpec scene hp n alb tp := by
  refine ⟨rfl, ?_⟩
  have hfalse : directTerm false scene hp n alb tp
      = directLight scene hp n alb tp := rfl
  rw [hfalse]
  unfold directLight directLightSpec
  dsimp only
  have hnn : 0 ≤ dot ((⟨8, 12, -6⟩ : Vec3) - hp) ((⟨8, 12, -6⟩ : Vec3) - hp) :=
    dot_self_nonneg _
  have hcube : dot ((⟨8, 12, -6⟩ : Vec3) - hp) ((⟨8, 12, -6⟩ : Vec3) - hp)
      * Real.sqrt (dot ((⟨8, 12, -6⟩ : Vec3) - hp) ((⟨8, 12, -6⟩ : Vec3) - hp))
      = Real.sqrt (dot ((⟨8, 12, -6⟩ : Vec3) - hp) ((⟨8, 12, -6⟩ : Vec3) - hp)) ^ 3 := by
    have h2 := Real.sq_sqrt hnn
    calc dot ((⟨8, 12, -6⟩ : Vec3) - hp) ((⟨8, 12, -6⟩ : Vec3) - hp)
        * Real.sqrt (dot ((⟨8, 12, -6⟩ : Vec3) - hp) ((⟨8, 12, -6⟩ : Vec3) - hp))
        = Real.sqrt (dot ((⟨8, 12, -6⟩ : Vec3) - hp) ((⟨8, 12, -6⟩ : Vec3) - hp)) ^ 2
          * Real.sqrt (dot ((⟨8, 12, -6⟩ : Vec3) - hp) ((⟨8, 12, -6⟩ : Vec3) - hp)) := by
          rw [h2]
      _ = Real.sqrt (dot ((⟨8, 12, -6⟩ : Vec3) - hp) ((⟨8, 12, -6⟩ : Vec3) - hp)) ^ 3 := by
          ring
  by_cases hpos : 0 < dot n ((⟨8, 12, -6⟩ : Vec3) - hp)
  · rw [if_pos hpos]
    have hmax : max 0 (dot n ((⟨8, 12, -6⟩ : Vec3) - hp))
        = dot n ((⟨8, 12, -6⟩ : Vec3) - hp) := max_eq_right hpos.le
    have hval : tp * (((alb.scale (dot n ((⟨8, 12, -6⟩ : Vec3) - hp))).scale
          (1 / (dot ((⟨8, 12, -6⟩ : Vec3) - hp) ((⟨8, 12, -6⟩ : Vec3) - hp)
            * Real.sqrt (dot ((⟨8, 12, -6⟩ : Vec3) - hp) ((⟨8, 12, -6⟩ : Vec3) - hp))))).scale 720)
        = tp * ((alb.scale (max 0 (dot n ((⟨8, 12, -6⟩ : Vec3) - hp))
          / Real.sqrt (dot ((⟨8, 12, -6⟩ : Vec3) - hp) ((⟨8, 12, -6⟩ : Vec3) - hp)) ^ 3)).scale 720) := by
      rw [hmax, ← hcube]
      ext <;> simp only [Vec3.mul_def, Vec3.scale_def] <;> ring
    simp only [hval]
  · rw [if_neg hpos]
    have hmax : max 0 (dot n ((⟨8, 12, -6⟩ : Vec3) - hp)) = 0 :=
      max_eq_left (le_of_not_lt hpos)
    have hzero : tp * ((alb.scale (max 0 (dot n ((⟨8, 12, -6⟩ : Vec3) - hp))
        / Real.sqrt (dot ((⟨8, 12, -6⟩ : Vec3) - hp) ((⟨8, 12, -6⟩ : Vec3) - hp)) ^ 3)).scale 720)
        = 0 := by
      rw [hmax]
      ext <;> simp
    simp only [hzero]
    cases hX : scene.nearestIntersection
        { o := hp,
          d := ((⟨8, 12, -6⟩ : Vec3) - hp).scale
            (1 / Real.sqrt (dot ((⟨8, 12, -6⟩ : Vec3) - hp) ((⟨8, 12, -6⟩ : Vec3) - hp))) } with
    | none => rfl
    | some p =>
        dsimp only
        split <;> rfl

/-! ### Claims C2 and C10: render as a pure accumulation at one pixel -/

/-- C2.  The values render adds to the buffer depend only on the pixel
coordinates, frame index, pass index, total frame count, scene and the
buffer's resolution: for two buffers of equal resolution but arbitrary
(different) array contents and pass counters, the added deltas are
identical, so repeated runs from fixed inputs produce identical
accumulation results and no state shared between pixels or threads can
influence them. -/
theorem render_deterministic (x y frame pass frames : ℕ) (scene : Scene)
    (o1 o2 : RenderOutput) (hx : o1.xres = o2.xres) (hy : o1.yres = o2.yres) :
    (render x y frame pass frames scene o1).beauty (y * o1.xres + x)
        - o1.beauty (y * o1.xres + x)
      = (render x y frame pass frames scene o2).beauty (y * o2.xres + x)
        - o2.beauty (y * o2.xres + x) ∧
    (render x y frame pass frames scene o1).normal (y * o1.xres + x)
        - o1.normal (y * o1.xres + x)
      = (render x y frame pass frames scene o2).normal (y * o2.xres + x)
        - o2.normal (y * o2.xres + x) ∧
    (render x y frame pass frames scene o1).albedo (y * o1.xres + x)
        - o1.albedo (y * o1.xres + x)
      = (render x y frame pass frames scene o2).albedo (y * o2.xres + x)
        - o2.albedo (y * o2.xres + x) := by
  refine ⟨?_, ?_, ?_⟩ <;>
    (unfold render
     dsimp only
     rw [Function.update_same, Function.update_same, Vec3.add_sub_cancel_left,
       Vec3.add_sub_cancel_left, hx, hy])

/-- Witness for C2: same resolution, entirely different buffer
contents. -/
theorem render_deterministic_witness :
    (render 0 0 0 0 0 missScene (emptyOutput 2 2)).beauty
        (0 * (emptyOutput 2 2).xres + 0)
        - (emptyOutput 2 2).beauty (0 * (emptyOutput 2 2).xres + 0)
      = (render 0 0 0 0 0 missScene (onesOutput 2 2)).beauty
        (0 * (onesOutput 2 2).xres + 0)
        - (onesOutput 2 2).beauty (0 * (onesOutput 2 2).xres + 0) ∧
    (render 0 0 0 0 0 missScene (emptyOutput 2 2)).normal
        (0 * (emptyOutput 2 2).xres + 0)
        - (emptyOutput 2 2).normal (0 * (emptyOutput 2 2).xres + 0)
      = (render 0 0 0 0 0 missScene (onesOutput 2 2)).normal
        (0 * (onesOutput 2 2).xres + 0)
        - (onesOutput 2 2).normal (0 * (onesOutput 2 2).xres + 0) ∧
    (render 0 0 0 0 0 missScene (emptyOutput 2 2)).albedo
        (0 * (emptyOutput 2 2).xres + 0)
        - (emptyOutput 2 2).albedo (0 * (emptyOutput 2 2).xres + 0)
      = (render 0 0 0 0 0 missScene (onesOutput 2 2)).albedo
        (0 * (onesOutput 2 2).xres + 0)
        - (onesOutput 2 2).albedo (0 * (onesOutput 2 2).xres + 0) :=
  render_deterministic 0 0 0 0 0 missScene (emptyOutput 2 2) (onesOutput 2 2)
    rfl rfl

theorem foldl_render_passes (frame base_pass frames : ℕ) (scene : Scene) :
    ∀ (l : List (ℕ × ℕ × ℕ)) (o : RenderOutput),
      (l.foldl (fun acc c =>
        render c.1 c.2.1 frame (base_pass + c.2.2) frames scene acc) o).passes
        = o.passes := by
  intro l
  induction l with
  | nil => intro o; rfl
  | cons c l ih =>
      intro o
      rw [List.foldl_cons, ih]
      rfl

/-- C10.  A single render call only adds one value to each of the
beauty, normal and albedo arrays at the single index y * xres + x,
leaves every other entry of all three arrays unchanged, and does not
modify the passes counter; the scheduler loop renderThreadFunction never
modifies the passes counter either. -/
theorem render_frame_effect (x y frame pass frames : ℕ) (scene : Scene)
    (o : RenderOutput) :
    (∀ j, (render x y frame pass frames scene o).beauty j
      = if j = y * o.xres + x then
          o.beauty j + (renderDelta x y frame pass frames o.xres o.yres scene).1
        else o.beauty j) ∧
    (∀ j, (render x y frame pass frames scene o).normal j
      = if j = y * o.xres + x then
          o.normal j + (renderDelta x y frame pass frames o.xres o.yres scene).2.1
        else o.normal j) ∧
    (∀ j, (render x y frame pass frames scene o).albedo j
      = if j = y * o.xres + x then
          o.albedo j + (renderDelta x y frame pass frames o.xres o.yres scene).2.2
        else o.albedo j) ∧
    (render x y frame pass frames scene o).passes = o.passes ∧
    ∀ P base_pass,
      (runScheduler P frame base_pass frames scene o).passes = o.passes := by
  refine ⟨?_, ?_, ?_, rfl, ?_⟩
  · intro j
    unfold render
    dsimp only
    rw [Function.update_apply]
    split
    · rename_i hj
      rw [hj]
    · rfl
  · intro j
    unfold render
    dsimp only
    rw [Function.update_apply]
    split
    · rename_i hj
      rw [hj]
    · rfl
  · intro j
    unfold render
    dsimp only
    rw [Function.update_apply]
    split
    · rename_i hj
      rw [hj]
    · rfl
  · intro P base_pass
    exact foldl_render_passes frame base_pass frames scene
      (scheduleCalls o.xres o.yres P) o

/-! ### Claim C1: scheduler work coverage -/

theorem countP_flatMap (p : ℕ × ℕ × ℕ → Bool) :
    ∀ (l : List ℕ) (f : ℕ → List (ℕ × ℕ × ℕ)),
      (l.flatMap f).countP p = (l.map fun a => (f a).countP p).sum := by
  intro l
  induction l with
  | nil => intro f; rfl
  | cons a l ih =>
      intro f
      rw [List.flatMap_cons, List.countP_append, List.map_cons, List.sum_cons,
        ih]

theorem countP_range'_ind (t : ℕ) :
    ∀ n a, (List.range' a n).countP (fun v => decide (v = t))
      = if a ≤ t ∧ t < a + n then 1 else 0 := by
  intro n
  induction n with
  | zero =>
      intro a
      simp only [List.range'_zero, List.countP_nil]
      split_ifs <;> omega
  | succ n ih =>
      intro a
      rw [List.range'_succ, List.countP_cons, ih (a + 1)]
      simp only [decide_eq_true_eq]
      split_ifs <;> omega

theorem sum_indicator_range (t c : ℕ) :
    ∀ n, ((List.range n).map fun b => if b = t then c else 0).sum
      = if t < n then c else 0 := by
  intro n
  induction n with
  | zero => simp
  | succ n ih =>
      rw [List.range_succ, List.map_append, List.sum_append, ih]
      simp only [List.map_cons, List.map_nil, List.sum_cons, List.sum_nil]
      split_ifs <;> omega

theorem sum_indicator_range' (t c : ℕ) :
    ∀ n a, ((List.range' a n).map fun v => if v = t then c else 0).sum
      = if a ≤ t ∧ t < a + n then c else 0 := by
  intro n
  induction n with
  | zero =>
      intro a
      simp only [List.range'_zero, List.map_nil, List.sum_nil]
      split_ifs <;> omega
  | succ n ih =>
      intro a
      rw [List.range'_succ, List.map_cons, List.sum_cons, ih (a + 1)]
      split_ifs <;> omega

theorem sum_indicator_mod (n t : ℕ) (ht : t < n) :
    ∀ P, ((List.range (n * P)).map fun b => if b % n = t then (1 : ℕ) else 0).sum
      = P := by
  intro P
  induction P with
  | zero => simp
  | succ P ih =>
      rw [Nat.mul_succ, List.range_add, List.map_append, List.sum_append, ih,
        List.map_map]
      have hcong : ∀ i ∈ List.range n,
          ((fun b => if b % n = t then (1 : ℕ) else 0) ∘ fun i => n * P + i) i
            = if i = t then (1 : ℕ) else 0 := by
        intro i hi
        have hi' : i < n := List.mem_range.mp hi
        simp only [Function.comp]
        rw [Nat.mul_add_mod, Nat.mod_eq_of_lt hi']
      rw [List.map_congr_left hcong, sum_indicator_range t 1 n, if_pos ht]

theorem if_and_assoc (P Q : Prop) [Decidable P] [Decidable Q] (c : ℕ) :
    (if P ∧ Q then c else 0) = if P then (if Q then c else 0) else 0 := by
  by_cases hP : P <;> by_cases hQ : Q <;> simp [hP, hQ]

theorem countP_triple_map (x y s yy sp x0 n : ℕ) :
    ((List.range' x0 n).map fun xx => (xx, yy, sp)).countP
        (fun c => decide (c = (x, y, s)))
      = if yy = y ∧ sp = s then (if x0 ≤ x ∧ x < x0 + n then 1 else 0)
        else 0 := by
  rw [List.countP_map]
  by_cases hys : yy = y ∧ sp = s
  · obtain ⟨rfl, rfl⟩ := hys
    rw [if_pos ⟨rfl, rfl⟩, ← countP_range'_ind x n x0]
    apply List.countP_congr
    intro v hv
    simp [Prod.ext_iff]
  · rw [if_neg hys]
    apply List.countP_eq_zero.mpr
    intro a ha
    simp only [Function.comp_apply, decide_eq_true_eq, Prod.mk.injEq]
    tauto

theorem countP_triple_map_pixel (x y yy sp x0 n : ℕ) :
    ((List.range' x0 n).map fun xx => (xx, yy, sp)).countP
        (fun c => decide (c.1 = x ∧ c.2.1 = y))
      = if yy = y then (if x0 ≤ x ∧ x < x0 + n then 1 else 0) else 0 := by
  rw [List.countP_map]
  by_cases hyy : yy = y
  · subst hyy
    rw [if_pos rfl, ← countP_range'_ind x n x0]
    apply List.countP_congr
    intro v hv
    simp
  · rw [if_neg hyy]
    apply List.countP_eq_zero.mpr
    intro a ha
    simp only [Function.comp_apply, decide_eq_true_eq]
    tauto

/-- Work unit b evaluates pixel (x, y) in sub-pass s exactly once if b
is the unique unit targetB covering that pixel in that sub-pass, and
never otherwise (bucket rectangles are clipped at the right and bottom
image edges). -/
theorem bucketCalls_countP (xres yres x y s : ℕ) (hx : x < xres)
    (hy : y < yres) (b : ℕ) :
    (bucketCalls xres yres b).countP (fun c => decide (c = (x, y, s)))
      = if b = targetB xres yres x y s then 1 else 0 := by
  unfold bucketCalls targetB numBuckets xBuckets yBuckets bucket_size
  dsimp only
  rw [countP_flatMap]
  simp only [countP_triple_map, if_and_assoc]
  rw [sum_indicator_range']
  set xb := (xres + 32 - 1) / 32 with hxb
  set yb := (yres + 32 - 1) / 32 with hyb
  set nb := xb * yb with hnb
  set q := b / nb with hq
  set p := b - nb * q with hp
  set r2 := p / xb with hr2
  set r1 := p - xb * r2 with hr1
  clear_value xb yb nb q p r2 r1
  have hxb0 : 0 < xb := by rw [hxb]; omega
  have hyb0 : 0 < yb := by rw [hyb]; omega
  have hnb0 : 0 < nb := by rw [hnb]; exact Nat.mul_pos hxb0 hyb0
  have h1 : nb * (b / nb) + b % nb = b := Nat.div_add_mod b nb
  rw [← hq] at h1
  have h2 : b % nb < nb := Nat.mod_lt b hnb0
  have hpval : p = b % nb := by omega
  have h3 : xb * (p / xb) + p % xb = p := Nat.div_add_mod p xb
  rw [← hr2] at h3
  have h4 : p % xb < xb := Nat.mod_lt p hxb0
  have hr1val : r1 = p % xb := by omega
  have hxdiv : x / 32 < xb := by rw [hxb]; omega
  have hydiv : y / 32 < yb := by rw [hyb]; omega
  by_cases hD : b = s * nb + (y / 32 * xb + x / 32)
  · have hp0lt : y / 32 * xb + x / 32 < nb := by
      have hmul1 : (y / 32 + 1) * xb ≤ yb * xb :=
        Nat.mul_le_mul_right xb (by omega)
      have hmul2 : (y / 32 + 1) * xb = y / 32 * xb + xb := by ring
      have hmul3 : yb * xb = nb := by rw [hnb]; ring
      omega
    have hqs : q = s := by
      rw [hq, hD, show s * nb + (y / 32 * xb + x / 32)
        = (y / 32 * xb + x / 32) + s * nb from by ring,
        Nat.add_mul_div_right _ _ hnb0, Nat.div_eq_of_lt hp0lt]
      omega
    have hbmod : b % nb = y / 32 * xb + x / 32 := by
      rw [hD, show s * nb + (y / 32 * xb + x / 32)
        = (y / 32 * xb + x / 32) + s * nb from by ring,
        Nat.add_mul_mod_self_right, Nat.mod_eq_of_lt hp0lt]
    have hpv2 : p = y / 32 * xb + x / 32 := by omega
    have hr2v : r2 = y / 32 := by
      rw [hr2, hpv2, show y / 32 * xb + x / 32 = x / 32 + y / 32 * xb from by ring,
        Nat.add_mul_div_right _ _ hxb0, Nat.div_eq_of_lt hxdiv]
      omega
    have hr1v : r1 = x / 32 := by
      rw [hr1val, hpv2, show y / 32 * xb + x / 32 = x / 32 + y / 32 * xb from by ring,
        Nat.add_mul_mod_self_right, Nat.mod_eq_of_lt hxdiv]
    rw [if_pos (show r2 * 32 ≤ y ∧ y < r2 * 32 + ((r2 * 32 + 32) ⊓ yres - r2 * 32) from by
        constructor <;> omega),
      if_pos hqs, if_pos (show r1 * 32 ≤ x from by omega),
      if_pos (show x < r1 * 32 + ((r1 * 32 + 32) ⊓ xres - r1 * 32) from by omega),
      if_pos hD]
  · rw [if_neg hD]
    split_ifs with hA hB hC1 hC2
    · exfalso
      apply hD
      have hr2y : r2 = y / 32 := by omega
      have hr1x : r1 = x / 32 := by omega
      have e1 : nb * q = s * nb := by rw [hB]; ring
      have e2 : xb * r2 = y / 32 * xb := by rw [hr2y]; ring
      omega
    all_goals rfl

/-- Work unit b evaluates pixel (x, y) (in whatever sub-pass) exactly
once if its bucket index b mod numBuckets is the unique bucket targetP
covering that pixel, and never otherwise. -/
theorem bucketCalls_countP_pixel (xres yres x y : ℕ) (hx : x < xres)
    (hy : y < yres) (b : ℕ) :
    (bucketCalls xres yres b).countP (fun c => decide (c.1 = x ∧ c.2.1 = y))
      = if b % numBuckets xres yres = targetP xres x y then 1 else 0 := by
  unfold bucketCalls targetP numBuckets xBuckets yBuckets bucket_size
  dsimp only
  rw [countP_flatMap]
  simp only [countP_triple_map_pixel]
  rw [sum_indicator_range']
  set xb := (xres + 32 - 1) / 32 with hxb
  set yb := (yres + 32 - 1) / 32 with hyb
  set nb := xb * yb with hnb
  set q := b / nb with hq
  set p := b - nb * q with hp
  set r2 := p / xb with hr2
  set r1 := p - xb * r2 with hr1
  clear_value xb yb nb q p r2 r1
  have hxb0 : 0 < xb := by rw [hxb]; omega
  have hyb0 : 0 < yb := by rw [hyb]; omega
  have hnb0 : 0 < nb := by rw [hnb]; exact Nat.mul_pos hxb0 hyb0
  have h1 : nb * (b / nb) + b % nb = b := Nat.div_add_mod b nb
  rw [← hq] at h1
  have h2 : b % nb < nb := Nat.mod_lt b hnb0
  have hpval : p = b % nb := by omega
  have h3 : xb * (p / xb) + p % xb = p := Nat.div_add_mod p xb
  rw [← hr2] at h3
  have h4 : p % xb < xb := Nat.mod_lt p hxb0
  have hr1val : r1 = p % xb := by omega
  have hxdiv : x / 32 < xb := by rw [hxb]; omega
  have hydiv : y / 32 < yb := by rw [hyb]; omega
  by_cases hD : b % nb = y / 32 * xb + x / 32
  · have hpv2 : p = y / 32 * xb + x / 32 := by omega
    have hr2v : r2 = y / 32 := by
      rw [hr2, hpv2, show y / 32 * xb + x / 32 = x / 32 + y / 32 * xb from by ring,
        Nat.add_mul_div_right _ _ hxb0, Nat.div_eq_of_lt hxdiv]
      omega
    have hr1v : r1 = x / 32 := by
      rw [hr1val, hpv2, show y / 32 * xb + x / 32 = x / 32 + y / 32 * xb from by ring,
        Nat.add_mul_mod_self_right, Nat.mod_eq_of_lt hxdiv]
    rw [if_pos (show r2 * 32 ≤ y ∧ y < r2 * 32 + ((r2 * 32 + 32) ⊓ yres - r2 * 32) from by
        constructor <;> omega),
      if_pos (show r1 * 32 ≤ x ∧ x < r1 * 32 + ((r1 * 32 + 32) ⊓ xres - r1 * 32) from by
        constructor <;> omega),
      if_pos hD]
  · rw [if_neg hD]
    split_ifs with hA hC
    · exfalso
      apply hD
      have hr2y : r2 = y / 32 := by omega
      have hr1x : r1 = x / 32 := by omega
      have e2 : xb * r2 = y / 32 * xb := by rw [hr2y]; ring
      omega
    all_goals rfl

theorem targetP_lt (xres yres x y : ℕ) (hx : x < xres) (hy : y < yres) :
    targetP xres x y < numBuckets xres yres := by
  unfold targetP numBuckets xBuckets yBuckets bucket_size
  have hxdiv : x / 32 < (xres + 32 - 1) / 32 := by omega
  have hydiv : y / 32 < (yres + 32 - 1) / 32 := by omega
  set xb := (xres + 32 - 1) / 32
  set yb := (yres + 32 - 1) / 32
  have hmul1 : (y / 32 + 1) * xb ≤ yb * xb := Nat.mul_le_mul_right xb (by omega)
  have hmul2 : (y / 32 + 1) * xb = y / 32 * xb + xb := by ring
  have hmul3 : yb * xb = xb * yb := by ring
  omega

theorem xBucketsI_eq (xres : ℕ) (h : xres + 31 < 2 ^ 31) :
    xBucketsI xres = (xBuckets xres : ℤ) := by
  unfold xBucketsI xBuckets bucket_size
  have h1 : (xres : ℤ) + 32 - 1 = ((xres + 32 - 1 : ℕ) : ℤ) := by push_cast; ring
  have h2 : int32wrap ((xres : ℤ) + 32 - 1) = ((xres + 32 - 1 : ℕ) : ℤ) := by
    rw [h1]
    exact int32wrap_eq_self _ (Int.natCast_nonneg _)
      (by exact_mod_cast (show xres + 32 - 1 < 2 ^ 31 by omega))
  rw [h2]
  exact_mod_cast (Int.ofNat_tdiv (xres + 32 - 1) 32).symm

theorem yBucketsI_eq (yres : ℕ) (h : yres + 31 < 2 ^ 31) :
    yBucketsI yres = (yBuckets yres : ℤ) := by
  unfold yBucketsI yBuckets bucket_size
  have h1 : (yres : ℤ) + 32 - 1 = ((yres + 32 - 1 : ℕ) : ℤ) := by push_cast; ring
  have h2 : int32wrap ((yres : ℤ) + 32 - 1) = ((yres + 32 - 1 : ℕ) : ℤ) := by
    rw [h1]
    exact int32wrap_eq_self _ (Int.natCast_nonneg _)
      (by exact_mod_cast (show yres + 32 - 1 < 2 ^ 31 by omega))
  rw [h2]
  exact_mod_cast (Int.ofNat_tdiv (yres + 32 - 1) 32).symm

theorem numBucketsI_eq (xres yres : ℕ) (hx31 : xres + 31 < 2 ^ 31)
    (hy31 : yres + 31 < 2 ^ 31) (hnb31 : numBuckets xres yres < 2 ^ 31) :
    numBucketsI xres yres = (numBuckets xres yres : ℤ) := by
  unfold numBucketsI
  rw [xBucketsI_eq xres hx31, yBucketsI_eq yres hy31]
  have h1 : (xBuckets xres : ℤ) * (yBuckets yres : ℤ)
      = ((numBuckets xres yres : ℕ) : ℤ) := by
    unfold numBuckets
    push_cast
    ring
  rw [h1]
  exact int32wrap_eq_self _ (Int.natCast_nonneg _) (by exact_mod_cast hnb31)

theorem totalUnitsI_toNat (xres yres P : ℕ) (hx31 : xres + 31 < 2 ^ 31)
    (hy31 : yres + 31 < 2 ^ 31) (hP1 : 1 ≤ P)
    (hfit : numBuckets xres yres * P < 2 ^ 31) :
    (totalUnitsI xres yres P).toNat = numBuckets xres yres * P := by
  unfold totalUnitsI
  have hmul : numBuckets xres yres * 1 ≤ numBuckets xres yres * P :=
    Nat.mul_le_mul_left _ hP1
  have hnb31 : numBuckets xres yres < 2 ^ 31 := by omega
  rw [numBucketsI_eq xres yres hx31 hy31 hnb31]
  have h1 : (numBuckets xres yres : ℤ) * (P : ℤ)
      = ((numBuckets xres yres * P : ℕ) : ℤ) := by push_cast; ring
  rw [h1, int32wrap_eq_self _ (by positivity) (by exact_mod_cast hfit)]
  exact Int.toNat_natCast _

/-- On the no-overflow domain the source's int decode of a work unit
agrees with the mathematical decode bucketCalls. -/
theorem bucketCallsI_eq (xres yres b : ℕ) (hx0 : 0 < xres) (hy0 : 0 < yres)
    (hx31 : xres + 31 < 2 ^ 31) (hy31 : yres + 31 < 2 ^ 31)
    (hnb31 : numBuckets xres yres < 2 ^ 31) (hb31 : b < 2 ^ 31) :
    bucketCallsI xres yres (b : ℤ) = bucketCalls xres yres b := by
  unfold bucketCallsI bucketCalls bucket_size
  dsimp only
  have hxb1 : 1 ≤ xBuckets xres := by unfold xBuckets bucket_size; omega
  have hyb1 : 1 ≤ yBuckets yres := by unfold yBuckets bucket_size; omega
  have hxble : xBuckets xres * 32 ≤ xres + 31 := by
    unfold xBuckets bucket_size
    omega
  have hyble : yBuckets yres * 32 ≤ yres + 31 := by
    unfold yBuckets bucket_size
    omega
  have hnb1 : 1 ≤ numBuckets xres yres := by
    have := Nat.mul_le_mul hxb1 hyb1
    unfold numBuckets
    omega
  have hdm : numBuckets xres yres * (b / numBuckets xres yres)
      + b % numBuckets xres yres = b := Nat.div_add_mod b (numBuckets xres yres)
  have hmodlt : b % numBuckets xres yres < numBuckets xres yres :=
    Nat.mod_lt b (by omega)
  -- the decoded natural values and their bounds
  set sp := b / numBuckets xres yres with hspdef
  have hsple : numBuckets xres yres * sp ≤ b := by omega
  set p := b - numBuckets xres yres * sp with hpdef
  have hplt : p < numBuckets xres yres := by omega
  have hdm2 : xBuckets xres * (p / xBuckets xres) + p % xBuckets xres = p :=
    Nat.div_add_mod p (xBuckets xres)
  have hmodlt2 : p % xBuckets xres < xBuckets xres := Nat.mod_lt p (by omega)
  set bky := p / xBuckets xres with hbkydef
  have hbkyle : xBuckets xres * bky ≤ p := by omega
  set bkx := p - xBuckets xres * bky with hbkxdef
  have hbkxlt : bkx < xBuckets xres := by omega
  have hbkylt : bky < yBuckets yres := by
    rw [hbkydef]
    rw [Nat.div_lt_iff_lt_mul (by omega : 0 < xBuckets xres)]
    calc p < numBuckets xres yres := hplt
      _ = yBuckets yres * xBuckets xres := by unfold numBuckets; ring
  have hx0le : bkx * 32 + 32 ≤ xres + 31 := by
    have : (bkx + 1) * 32 ≤ xBuckets xres * 32 :=
      Nat.mul_le_mul_right 32 (by omega)
    have he : (bkx + 1) * 32 = bkx * 32 + 32 := by ring
    omega
  have hy0le : bky * 32 + 32 ≤ yres + 31 := by
    have : (bky + 1) * 32 ≤ yBuckets yres * 32 :=
      Nat.mul_le_mul_right 32 (by omega)
    have he : (bky + 1) * 32 = bky * 32 + 32 := by ring
    omega
  -- now rewrite the int-semantics side value by value
  rw [numBucketsI_eq xres yres hx31 hy31 hnb31, xBucketsI_eq xres hx31]
  have e1 : Int.tdiv (b : ℤ) (numBuckets xres yres : ℤ) = (sp : ℤ) := by
    rw [hspdef]
    exact_mod_cast (Int.ofNat_tdiv b (numBuckets xres yres)).symm
  rw [e1]
  have e2 : int32wrap ((numBuckets xres yres : ℤ) * (sp : ℤ))
      = ((numBuckets xres yres * sp : ℕ) : ℤ) := by
    rw [show (numBuckets xres yres : ℤ) * (sp : ℤ)
      = ((numBuckets xres yres * sp : ℕ) : ℤ) from by push_cast; ring]
    exact int32wrap_eq_self _ (Int.natCast_nonneg _)
      (by exact_mod_cast (show numBuckets xres yres * sp < 2 ^ 31 by omega))
  rw [e2]
  have e3 : int32wrap ((b : ℤ) - ((numBuckets xres yres * sp : ℕ) : ℤ))
      = (p : ℤ) := by
    rw [show (b : ℤ) - ((numBuckets xres yres * sp : ℕ) : ℤ) = (p : ℤ) from by
      rw [hpdef]
      push_cast [hsple]
      ring]
    exact int32wrap_eq_self _ (Int.natCast_nonneg _)
      (by exact_mod_cast (show p < 2 ^ 31 by omega))
  rw [e3]
  have e4 : Int.tdiv (p : ℤ) (xBuckets xres : ℤ) = (bky : ℤ) := by
    rw [hbkydef]
    exact_mod_cast (Int.ofNat_tdiv p (xBuckets xres)).symm
  rw [e4]
  have e5 : int32wrap ((xBuckets xres : ℤ) * (bky : ℤ))
      = ((xBuckets xres * bky : ℕ) : ℤ) := by
    rw [show (xBuckets xres : ℤ) * (bky : ℤ)
      = ((xBuckets xres * bky : ℕ) : ℤ) from by push_cast; ring]
    exact int32wrap_eq_self _ (Int.natCast_nonneg _)
      (by exact_mod_cast (show xBuckets xres * bky < 2 ^ 31 by omega))
  rw [e5]
  have e6 : int32wrap ((p : ℤ) - ((xBuckets xres * bky : ℕ) : ℤ))
      = (bkx : ℤ) := by
    rw [show (p : ℤ) - ((xBuckets xres * bky : ℕ) : ℤ) = (bkx : ℤ) from by
      rw [hbkxdef]
      push_cast [hbkyle]
      ring]
    exact int32wrap_eq_self _ (Int.natCast_nonneg _)
      (by exact_mod_cast (show bkx < 2 ^ 31 by omega))
  rw [e6]
  have e7 : int32wrap ((bkx : ℤ) * 32) = ((bkx * 32 : ℕ) : ℤ) := by
    rw [show (bkx : ℤ) * 32 = ((bkx * 32 : ℕ) : ℤ) from by push_cast; ring]
    exact int32wrap_eq_self _ (Int.natCast_nonneg _)
      (by exact_mod_cast (show bkx * 32 < 2 ^ 31 by omega))
  rw [e7]
  have e8 : int32wrap (((bkx * 32 : ℕ) : ℤ) + 32)
      = ((bkx * 32 + 32 : ℕ) : ℤ) := by
    rw [show ((bkx * 32 : ℕ) : ℤ) + 32 = ((bkx * 32 + 32 : ℕ) : ℤ) from by
      push_cast; ring]
    exact int32wrap_eq_self _ (Int.natCast_nonneg _)
      (by exact_mod_cast (show bkx * 32 + 32 < 2 ^ 31 by omega))
  rw [e8]
  have e9 : int32wrap ((bky : ℤ) * 32) = ((bky * 32 : ℕ) : ℤ) := by
    rw [show (bky : ℤ) * 32 = ((bky * 32 : ℕ) : ℤ) from by push_cast; ring]
    exact int32wrap_eq_self _ (Int.natCast_nonneg _)
      (by exact_mod_cast (show bky * 32 < 2 ^ 31 by omega))
  rw [e9]
  have e10 : int32wrap (((bky * 32 : ℕ) : ℤ) + 32)
      = ((bky * 32 + 32 : ℕ) : ℤ) := by
    rw [show ((bky * 32 : ℕ) : ℤ) + 32 = ((bky * 32 + 32 : ℕ) : ℤ) from by
      push_cast; ring]
    exact int32wrap_eq_self _ (Int.natCast_nonneg _)
      (by exact_mod_cast (show bky * 32 + 32 < 2 ^ 31 by omega))
  rw [e10]
  have e11 : ((bkx * 32 + 32 : ℕ) : ℤ) ⊓ (xres : ℤ)
      = ((min (bkx * 32 + 32) xres : ℕ) : ℤ) := by
    rw [Nat.cast_min]
  rw [e11]
  have e12 : ((bky * 32 + 32 : ℕ) : ℤ) ⊓ (yres : ℤ)
      = ((min (bky * 32 + 32) yres : ℕ) : ℤ) := by
    rw [Nat.cast_min]
  rw [e12]
  rw [Int.toNat_sub, Int.toNat_sub]
  -- both sides now enumerate the same natural rectangle
  have hcomp : ∀ a c : ℕ, ((a : ℤ) + (c : ℤ)).toNat = a + c := by
    intro a c
    rw [← Nat.cast_add]
    exact Int.toNat_natCast _
  simp only [List.range'_eq_map_range, List.flatMap_map, List.map_map]
  refine congrArg _ (funext fun yy => ?_)
  apply List.map_congr_left
  intro xx hxx
  simp only [Function.comp_apply]
  rw [hcomp, hcomp, Int.toNat_natCast]

/-- C1 (amended).  For every image resolution (xres, yres) with
xres, yres ≥ 1, every pass count P ≥ 1 and every pixel (x, y) of the
image, provided no int computation of the scheduler overflows — that is,
xres + 31 < 2^31, yres + 31 < 2^31 (the rounded-up bucket counts) and
num_buckets * P < 2^31 (the loop bound) — the bucket scheduler run
single-threaded to completion evaluates pixel (x, y) exactly once in
every sub-pass s < P and exactly P times in total, with no pixel skipped
or double-counted. -/
theorem scheduler_coverage (xres yres P x y s : ℕ)
    (hx : x < xres) (hy : y < yres) (hs : s < P)
    (hx31 : xres + 31 < 2 ^ 31) (hy31 : yres + 31 < 2 ^ 31)
    (hfit : numBuckets xres yres * P < 2 ^ 31) :
    callCount xres yres P x y s = 1 ∧ pixelCallCount xres yres P x y = P := by
  have hmul : numBuckets xres yres * 1 ≤ numBuckets xres yres * P :=
    Nat.mul_le_mul_left _ (by omega)
  have hnb31 : numBuckets xres yres < 2 ^ 31 := by omega
  have htot : (totalUnitsI xres yres P).toNat = numBuckets xres yres * P :=
    totalUnitsI_toNat xres yres P hx31 hy31 (by omega) hfit
  have htp := targetP_lt xres yres x y hx hy
  have hbridge : ∀ bb, bb < numBuckets xres yres * P →
      bucketCallsI xres yres (bb : ℤ) = bucketCalls xres yres bb := fun bb hbb =>
    bucketCallsI_eq xres yres bb (by omega) (by omega) hx31 hy31 hnb31 (by omega)
  constructor
  · unfold callCount scheduleCalls
    rw [htot, countP_flatMap]
    have hcong : ∀ bb ∈ List.range (numBuckets xres yres * P),
        (bucketCallsI xres yres (bb : ℤ)).countP
          (fun c => decide (c = (x, y, s)))
          = if bb = targetB xres yres x y s then 1 else 0 := by
      intro bb hbb
      rw [hbridge bb (List.mem_range.mp hbb)]
      exact bucketCalls_countP xres yres x y s hx hy bb
    rw [List.map_congr_left hcong, sum_indicator_range]
    have hlt : targetB xres yres x y s < numBuckets xres yres * P := by
      have htb : targetB xres yres x y s
          = s * numBuckets xres yres + targetP xres x y := rfl
      have hmul1 : (s + 1) * numBuckets xres yres ≤ P * numBuckets xres yres :=
        Nat.mul_le_mul_right _ (by omega)
      have hmul2 : (s + 1) * numBuckets xres yres
          = s * numBuckets xres yres + numBuckets xres yres := by ring
      have hmul3 : P * numBuckets xres yres = numBuckets xres yres * P := by ring
      omega
    rw [if_pos hlt]
  · unfold pixelCallCount scheduleCalls
    rw [htot, countP_flatMap]
    have hcong : ∀ bb ∈ List.range (numBuckets xres yres * P),
        (bucketCallsI xres yres (bb : ℤ)).countP
          (fun c => decide (c.1 = x ∧ c.2.1 = y))
          = if bb % numBuckets xres yres = targetP xres x y then 1 else 0 := by
      intro bb hbb
      rw [hbridge bb (List.mem_range.mp hbb)]
      exact bucketCalls_countP_pixel xres yres x y hx hy bb
    rw [List.map_congr_left hcong]
    exact sum_indicator_mod (numBuckets xres yres) (targetP xres x y) htp P

/-- Witness for C1 (amended): a 33-by-1 image (two buckets, the second
clipped to one pixel column) with 2 passes, at pixel (32, 0) in
sub-pass 1. -/
theorem scheduler_coverage_witness :
    callCount 33 1 2 32 0 1 = 1 ∧ pixelCallCount 33 1 2 32 0 = 2 :=
  scheduler_coverage 33 1 2 32 0 1 (by norm_num) (by norm_num) (by norm_num)
    (by norm_num) (by norm_num) (by decide)

/-- Counterexample to C1, at two concrete inputs the original claim
covers.  First, xres = 64, yres = 32 (num_buckets = 2) with pass count
P = 2^30: the int loop bound num_buckets * num_passes = 2^31 wraps to
-2^31, so the scheduler exits immediately and pixel (0, 0) is evaluated
0 times instead of once in sub-pass 0 and 0 times instead of P times in
total.  Second, xres = 2^31 - 1, yres = 1 with P = 1: the int expression
xres + bucket_size - 1 wraps to -2147483618, x_buckets becomes
-67108863, the loop bound num_buckets * num_passes is negative, and
again no pixel is ever evaluated. -/
theorem scheduler_overflow_skips_pixels :
    (callCount 64 32 1073741824 0 0 0 = 0 ∧
      pixelCallCount 64 32 1073741824 0 0 = 0) ∧
    (callCount 2147483647 1 1 0 0 0 = 0 ∧
      pixelCallCount 2147483647 1 1 0 0 = 0) :=
  ⟨⟨rfl, rfl⟩, ⟨rfl, rfl⟩⟩


end FractalTracer
